import Mathlib

/-!
Verification development for the Scout abbreviation-extraction core
(src/core/extractor.py).  The Python module is shallowly embedded:
strings are lists of characters, the regular-expression searches of the
source are transcribed as explicit backtracking scanners with the same
match semantics, Python floats are modelled as exact rationals, and the
insertion-ordered dictionary of the aggregator is an association list.
The optional capabilities of the source (spaCy named-entity guard and
BERT semantic similarity) are absent in the modelled configuration, as
in a default installation, so the corresponding branches contribute
nothing; the acronym-lookup network call is abstracted by an oracle
function passed explicitly.
-/

namespace Scout

/-! ### Character classes (ASCII, as used by the source's regexes) -/

/-- Python regex word character: letter, digit or underscore. -/
def isWordChar (c : Char) : Bool := c.isAlpha || c.isDigit || c = '_'

/-- Python regex whitespace class. -/
def pyIsSpace (c : Char) : Bool :=
  c = ' ' || c = '\t' || c = '\n' || c = '\r' || c = '\x0b' || c = '\x0c'

/-- Case-insensitive character comparison (IGNORECASE semantics, ASCII). -/
def ciEq (a b : Char) : Bool := a.toLower = b.toLower

/-! ### List-of-characters utilities mirroring Python string operations -/

/-- Does `p` occur as a literal prefix of `s`? -/
def litPre : List Char → List Char → Bool
  | [], _ => true
  | _ :: _, [] => false
  | p :: ps, c :: cs => p = c && litPre ps cs

/-- Does `p` occur as a case-insensitive prefix of `s`? -/
def ciPre : List Char → List Char → Bool
  | [], _ => true
  | _ :: _, [] => false
  | p :: ps, c :: cs => ciEq p c && ciPre ps cs

/-- Substring containment, literal (Python `p in s`). -/
def litSub (p : List Char) : List Char → Bool
  | [] => litPre p []
  | c :: cs => litPre p (c :: cs) || litSub p cs

/-- Substring containment, case-insensitive. -/
def ciSub (p : List Char) : List Char → Bool
  | [] => ciPre p []
  | c :: cs => ciPre p (c :: cs) || ciSub p cs

/-- Index of the first occurrence of `p` in `s`, or none. -/
def litIdx (p : List Char) : List Char → Option Nat
  | [] => if litPre p [] then some 0 else none
  | c :: cs =>
    if litPre p (c :: cs) then some 0
    else (litIdx p cs).map (· + 1)

/-- Python `str.find`: first index of the substring, or -1. -/
def pyFind (p s : List Char) : Int :=
  match litIdx p s with
  | some n => (n : Int)
  | none => -1

/-- Python `str.strip()`: remove leading and trailing whitespace. -/
def pyStrip (cs : List Char) : List Char :=
  ((cs.dropWhile pyIsSpace).reverse.dropWhile pyIsSpace).reverse

/-- Python `str.split()` with no argument: split on whitespace runs,
    producing no empty pieces.  Fuel-driven scan (fuel bounds the length). -/
def pySplitWs : Nat → List Char → List (List Char)
  | 0, _ => []
  | _ + 1, [] => []
  | fuel + 1, c :: cs =>
    if pyIsSpace c then pySplitWs fuel cs
    else (c :: cs.takeWhile (fun d => !pyIsSpace d)) ::
      pySplitWs fuel (cs.dropWhile (fun d => !pyIsSpace d))

/-- Python `str.isupper()`: at least one cased character and no lowercase one. -/
def pyIsUpper (cs : List Char) : Bool :=
  cs.any (·.isAlpha) && cs.all (fun c => !c.isAlpha || c.isUpper)

/-- Join a list of words with single spaces (Python `' '.join`). -/
def joinWords : List (List Char) → List Char
  | [] => []
  | [w] => w
  | w :: ws => w ++ ' ' :: joinWords ws

/-- Remove every occurrence of a character (Python `str.replace(ch, '')`). -/
def removeCh (ch : Char) (cs : List Char) : List Char :=
  cs.filter (fun c => c ≠ ch)

/-! ### Exclusion sets (extractor.py lines 36-50 and 96-133).
The NLTK corpus is unavailable in the modelled configuration, so the
source falls back to its built-in basic stopword list. -/

/-- Fallback stopword list (extractor.py lines 39-50). -/
def STOP_WORDS : List String :=
  ["THE", "BE", "TO", "OF", "AND", "A", "IN", "THAT", "HAVE", "I",
   "IT", "FOR", "NOT", "ON", "WITH", "HE", "AS", "YOU", "DO", "AT",
   "THIS", "BUT", "HIS", "BY", "FROM", "THEY", "WE", "SAY", "HER", "SHE",
   "OR", "AN", "WILL", "MY", "ONE", "ALL", "WOULD", "THERE", "THEIR", "WHAT",
   "SO", "UP", "OUT", "IF", "ABOUT", "WHO", "GET", "WHICH", "GO", "ME",
   "WHEN", "MAKE", "CAN", "LIKE", "TIME", "NO", "JUST", "HIM", "KNOW", "TAKE",
   "PEOPLE", "INTO", "YEAR", "YOUR", "GOOD", "SOME", "COULD", "THEM", "SEE",
   "OTHER",
   "THAN", "THEN", "NOW", "LOOK", "ONLY", "COME", "ITS", "OVER", "THINK",
   "ALSO",
   "BACK", "AFTER", "USE", "TWO", "HOW", "OUR", "WORK", "FIRST", "WELL", "WAY",
   "EVEN", "NEW", "WANT", "BECAUSE", "ANY", "THESE", "GIVE", "DAY", "MOST",
   "US"]

/-- Domain-specific exclusions (extractor.py lines 96-129). -/
def ADDITIONAL_EXCLUDES : List String :=
  ["ELEVEN", "TWELVE", "THIRTEEN", "FOURTEEN", "FIFTEEN", "SIXTEEN",
   "SEVENTEEN",
   "EIGHTEEN", "NINETEEN", "TWENTY", "THIRTY", "FORTY", "FIFTY", "SIXTY",
   "SEVENTY",
   "EIGHTY", "NINETY", "HUNDRED", "THOUSAND", "MILLION", "BILLION",
   "ELEVENTH", "TWELFTH", "THIRTEENTH", "FOURTEENTH", "FIFTEENTH", "SIXTEENTH",
   "SEVENTEENTH", "EIGHTEENTH", "NINETEENTH", "TWENTIETH",
   "PARLIAMENT", "SENATE", "ASSEMBLY", "COUNCIL", "COURT", "JUDGE", "JUSTICE",
   "PRESIDENT", "MINISTER", "SECRETARY", "OFFICER", "COMMISSION", "COMMITTEE",
   "BOARD", "AUTHORITY", "DEPARTMENT", "AGENCY", "SERVICE", "REPUBLIC",
   "CONSTITUTION", "COUNTY", "NATIONAL", "PUBLIC", "EXECUTIVE", "LEGISLATIVE",
   "JUDICIAL", "FEDERAL", "LOCAL", "ELECTORAL", "DEVOLVED", "PRINCIPLES",
   "RIGHTS", "LAWS", "OFFICES", "OATH", "REVENUE", "FINANCE", "BUDGET",
   "KENYA", "AMERICA", "AMERICAN", "EUROPE", "EUROPEAN", "ASIA", "ASIAN",
   "AFRICA", "AFRICAN", "AUSTRALIA", "CHINA", "CHINESE", "INDIA", "INDIAN",
   "JAPAN", "JAPANESE", "KOREA", "KOREAN", "RUSSIA", "RUSSIAN", "FRANCE",
   "FRENCH", "GERMANY", "GERMAN", "ITALY", "ITALIAN", "SPAIN", "SPANISH",
   "CANADA", "CANADIAN", "MEXICO", "MEXICAN", "BRAZIL", "ENGLAND", "ENGLISH",
   "BRITISH", "LONDON", "PARIS", "TOKYO", "NAIROBI",
   "MONDAY", "TUESDAY", "WEDNESDAY", "THURSDAY", "FRIDAY", "SATURDAY",
   "SUNDAY",
   "JANUARY", "FEBRUARY", "MARCH", "APRIL", "JUNE", "JULY", "AUGUST",
   "SEPTEMBER",
   "OCTOBER", "NOVEMBER", "DECEMBER",
   "LAND", "DEBT", "ROLE", "SEAL", "FLAG", "ARMS", "COAT", "GOD"]

/-- Model of `Extractor.get_excluded_words` (extractor.py lines 131-133):
the union of the stopword set and the additional exclusions. -/
def get_excluded_words : List String := STOP_WORDS ++ ADDITIONAL_EXCLUDES

/-! ### Lexical candidate finders (extractor.py lines 86-93 and 316-336).

ABBREV_PATTERN is the regex `\b[A-Z][A-Z0-9]{1,9}\b`.  Both `\b`
anchors force a match to coincide with a maximal run of word
characters, so its matches are exactly those maximal word-character
runs of length 2-10 formed by an uppercase letter followed by
uppercase letters or digits. -/

/-- Decompose a text into its maximal word-character runs with their
    start offsets.  The first argument is fuel (any bound above the
    length of the text). -/
def wordRuns : Nat → Nat → List Char → List (List Char × Nat)
  | 0, _, _ => []
  | _ + 1, _, [] => []
  | fuel + 1, pos, c :: cs =>
    if isWordChar c then
      (c :: cs.takeWhile isWordChar, pos) ::
        wordRuns fuel (pos + 1 + (cs.takeWhile isWordChar).length)
          (cs.dropWhile isWordChar)
    else wordRuns fuel (pos + 1) cs

/-- Does a maximal word run match `[A-Z][A-Z0-9]{1,9}` in full? -/
def isAbbrevRun : List Char → Bool
  | [] => false
  | c :: rest =>
    c.isUpper && decide (1 ≤ rest.length) && decide (rest.length ≤ 9) &&
      rest.all (fun d => d.isUpper || d.isDigit)

/-- Matches of ABBREV_PATTERN with their offsets (extractor.py line 320). -/
def standardMatches (cs : List Char) : List (String × Int) :=
  (wordRuns (cs.length + 1) 0 cs).filterMap
    (fun rp => if isAbbrevRun rp.1 then some (String.mk rp.1, (rp.2 : Int)) else none)

/-! DOTTED_PATTERN is the regex `\b[A-Z](?:\.[A-Z])+\.?\b`
(extractor.py line 90), matched with the usual greedy backtracking. -/

/-- Count of leading `.X` pairs (dot followed by an uppercase letter). -/
def dotPairs : List Char → Nat
  | '.' :: d :: rest => if d.isUpper then 1 + dotPairs rest else 0
  | _ => 0

/-- After `k` pairs have been consumed, can the match be closed?
Returns how many further characters (the optional trailing dot) are
consumed, trying the greedy alternative (with the dot) first; `none`
if no word boundary can be placed. -/
def dottedClose : List Char → Option Nat
  | '.' :: d :: _ => if isWordChar d then some 1 else some 0
  | '.' :: [] => some 0
  | c :: _ => if isWordChar c then none else some 0
  | [] => some 0

/-- Backtrack over the pair count, largest first; `rest` is the text
just after the initial uppercase letter.  Returns the total match
length. -/
def dottedPick (rest : List Char) : Nat → Option Nat
  | 0 => none
  | k + 1 =>
    match dottedClose (rest.drop (2 * (k + 1))) with
    | some e => some (1 + 2 * (k + 1) + e)
    | none => dottedPick rest k

/-- Scan for non-overlapping matches of DOTTED_PATTERN (findall
semantics); the Bool argument records whether the previous character
was a word character (for the leading `\b`). -/
def dottedScan : Nat → Bool → List Char → List String
  | 0, _, _ => []
  | _ + 1, _, [] => []
  | fuel + 1, prevW, c :: cs =>
    if !prevW && c.isUpper then
      match dottedPick cs (dotPairs cs) with
      | some len =>
        String.mk ((c :: cs).take len) ::
          dottedScan fuel (((c :: cs).take len).getLastD 'A' |> isWordChar)
            ((c :: cs).drop len)
      | none => dottedScan fuel (isWordChar c) cs
    else dottedScan fuel (isWordChar c) cs

def dottedMatches (cs : List Char) : List String :=
  dottedScan (cs.length + 1) false cs

/-! HYPHENATED_PATTERN is the regex `\b[A-Z][A-Z0-9]*(?:-[A-Z0-9]+)+\b`
(extractor.py line 93). -/

def upperOrDigit (c : Char) : Bool := c.isUpper || c.isDigit

/-- Lengths of the successive `-[A-Z0-9]+` segments, greedily. -/
def hySegs : Nat → List Char → List Nat
  | 0, _ => []
  | fuel + 1, '-' :: rest =>
    let run := rest.takeWhile upperOrDigit
    if run.length = 0 then []
    else (1 + run.length) :: hySegs fuel (rest.drop run.length)
  | _ + 1, _ => []

/-- Word-boundary check after the final matched character (which is a
word character): the next character must be absent or a non-word one. -/
def boundaryAfter : List Char → Bool
  | [] => true
  | c :: _ => !isWordChar c

/-- Attempt a hyphenated match at an uppercase letter `c` (with a word
boundary before it); `cs` is the rest of the text.  Returns the match
length.  When the boundary fails after the last segment the regex
backtracks by dropping that whole segment (shrinking inside a segment
only exposes more word characters and cannot help); after any earlier
segment the next character is a hyphen, so the boundary holds. -/
def hyMatchLen (c : Char) (cs : List Char) : Option Nat :=
  let seg0 := 1 + (cs.takeWhile upperOrDigit).length
  let segTail := cs.drop (seg0 - 1)
  let segs := hySegs (segTail.length + 1) segTail
  if segs.length = 0 then none
  else
    let full := seg0 + segs.sum
    if boundaryAfter ((c :: cs).drop full) then some full
    else if segs.length ≥ 2 then
      some (seg0 + (segs.take (segs.length - 1)).sum)
    else none

/-- Scan for non-overlapping matches of HYPHENATED_PATTERN. -/
def hyScan : Nat → Bool → List Char → List String
  | 0, _, _ => []
  | _ + 1, _, [] => []
  | fuel + 1, prevW, c :: cs =>
    if !prevW && c.isUpper then
      match hyMatchLen c cs with
      | some len =>
        String.mk ((c :: cs).take len) ::
          hyScan fuel true ((c :: cs).drop len)
      | none => hyScan fuel (isWordChar c) cs
    else hyScan fuel (isWordChar c) cs

def hyphenatedMatches (cs : List Char) : List String :=
  hyScan (cs.length + 1) false cs

/-- The combined candidate list of `extract_from_text`
(extractor.py lines 316-336): standard matches with their offsets,
then dotted matches (normalized by removing dots, length-filtered,
offset found by `text.find` on the raw match), then hyphenated matches
(kept verbatim, length-filtered on the hyphen-stripped form). -/
def matchesOf (minLen maxLen : Int) (cs : List Char) : List (String × Int) :=
  standardMatches cs ++
  (dottedMatches cs).filterMap (fun m =>
    let normalized := removeCh '.' m.data
    if minLen ≤ (normalized.length : Int) ∧ (normalized.length : Int) ≤ maxLen
    then some (String.mk normalized, pyFind m.data cs) else none) ++
  (hyphenatedMatches cs).filterMap (fun m =>
    if minLen ≤ ((removeCh '-' m.data).length : Int) ∧
        ((removeCh '-' m.data).length : Int) ≤ maxLen
    then some (m, pyFind m.data cs) else none)

/-- Per-token frequency over the combined candidate list
(extractor.py line 339). -/
def countsOf (ms : List (String × Int)) (w : String) : Nat :=
  (ms.map Prod.fst).count w

/-! ### Exclusion filter (`_is_likely_abbreviation`, extractor.py
lines 279-312), with its helper searches. -/

/-- Model of `_is_named_entity` (lines 142-161): spaCy is unavailable in the
modelled configuration (HAS_SPACY is false), so the guard always
answers false. -/
def is_named_entity (_w : String) (_text : List Char) : Bool := false

/-- Search for the regex `\([^)]*W[^)]*\)`: a parenthesized group,
free of closing parentheses inside, containing the token (which never
contains a parenthesis itself). -/
def parenContains (w : List Char) : List Char → Bool
  | [] => false
  | '(' :: rest =>
    (let inside := rest.takeWhile (fun c => c ≠ ')')
     (match rest.drop inside.length with
      | ')' :: _ => litSub w inside
      | _ => false)) || parenContains w rest
  | _ :: cs => parenContains w cs

def colonDash (c : Char) : Bool := c = ':' || c = '-' || c = '—'

/-- Search for the regex `W\s*[:\-—]`. -/
def colonAfterTok (w : List Char) : List Char → Bool
  | [] => false
  | c :: cs =>
    (litPre w (c :: cs) &&
      (match ((c :: cs).drop w.length).dropWhile pyIsSpace with
       | d :: _ => colonDash d
       | [] => false)) || colonAfterTok w cs

/-- Search for the regex `[:\-—]\s*W`. -/
def colonBeforeTok (w : List Char) : List Char → Bool
  | [] => false
  | c :: cs =>
    (colonDash c && litPre w (cs.dropWhile pyIsSpace)) || colonBeforeTok w cs

/-! Glossary-section detection (`_is_in_glossary_section`, lines
260-277).  Each of the three IGNORECASE regexes is searched for its
leftmost match; on success the 500 characters following the match are
inspected for the abbreviation. -/

/-- Index of the last newline of a list, if any. -/
def lastIdxNl : List Char → Option Nat
  | [] => none
  | c :: cs =>
    match lastIdxNl cs with
    | some i => some (i + 1)
    | none => if c = '\n' then some 0 else none

/-- Try `(?:glossary|abbreviations|acronyms|definitions)\s*\n` at the
head of the suffix; greedy `\s*` followed by `\n` ends the match just
after the last newline of the whitespace run.  Returns the text after
the match. -/
def gAat (s : List Char) : Option (List Char) :=
  ["glossary", "abbreviations", "acronyms", "definitions"].findSome? (fun kw =>
    if ciPre kw.data s then
      let after := s.drop kw.length
      match lastIdxNl (after.takeWhile pyIsSpace) with
      | some i => some (after.drop (i + 1))
      | none => none
    else none)

def gAsearch : List Char → Option (List Char)
  | [] => none
  | c :: cs =>
    match gAat (c :: cs) with
    | some w => some w
    | none => gAsearch cs

/-- Try `(?:list of )?(?:abbreviations|acronyms)` at the head of the
suffix, the optional prefix being preferred (greedy `?`). -/
def gBat (s : List Char) : Option (List Char) :=
  ["list of abbreviations", "list of acronyms",
   "abbreviations", "acronyms"].findSome? (fun kw =>
    if ciPre kw.data s then some (s.drop kw.length) else none)

def gBsearch : List Char → Option (List Char)
  | [] => none
  | c :: cs =>
    match gBat (c :: cs) with
    | some w => some w
    | none => gBsearch cs

/-- For `appendix.*(?:abbreviations|acronyms)`: end offset of the last
keyword match whose start lies before the first newline (the greedy
dot cannot cross a newline). -/
def gClastAux : Nat → List Char → Option Nat
  | _, [] => none
  | idx, c :: cs =>
    if c = '\n' then none
    else
      match gClastAux (idx + 1) cs with
      | some e => some e
      | none =>
        if ciPre "abbreviations".data (c :: cs) then some (idx + 13)
        else if ciPre "acronyms".data (c :: cs) then some (idx + 8)
        else none

def gCat (s : List Char) : Option (List Char) :=
  if ciPre "appendix".data s then
    (gClastAux 0 (s.drop 8)).map (fun e => (s.drop 8).drop e)
  else none

def gCsearch : List Char → Option (List Char)
  | [] => none
  | c :: cs =>
    match gCat (c :: cs) with
    | some w => some w
    | none => gCsearch cs

/-- Model of `_is_in_glossary_section` (extractor.py lines 260-277). -/
def is_in_glossary_section (text : List Char) (w : String) : Bool :=
  (match gAsearch text with
   | some win => litSub w.data (win.take 500)
   | none => false) ||
  (match gBsearch text with
   | some win => litSub w.data (win.take 500)
   | none => false) ||
  (match gCsearch text with
   | some win => litSub w.data (win.take 500)
   | none => false)

/-- Model of `_is_likely_abbreviation` (extractor.py lines 279-312). -/
def is_likely_abbreviation (w : String) (text : List Char) : Bool :=
  if get_excluded_words.contains w then false
  else if is_named_entity w text then false
  else if w.data.any Char.isDigit then true
  else if parenContains w.data text then true
  else if colonAfterTok w.data text then true
  else if colonBeforeTok w.data text then true
  else if is_in_glossary_section text w then true
  else if 2 ≤ w.length && w.length ≤ 4 then true
  else false

/-! ### Definition locator (`_find_definition`, extractor.py lines
395-445) with its pre-cleaning and pattern strategies. -/

/-- Match length of `\n#+\s+.*?\n` at the head of the suffix (the
markdown-header cleanup, line 398).  The greedy `\s+` first takes the
whole whitespace run; the lazy dot-star then reaches the next newline;
if none follows the run, `\s+` backtracks onto a newline inside it. -/
def sub1At : List Char → Option Nat
  | '\n' :: rest =>
    let hn := (rest.takeWhile (fun c => c = '#')).length
    if hn = 0 then none
    else
      let after := rest.drop hn
      let ws := after.takeWhile pyIsSpace
      if ws.length = 0 then none
      else
        let afterW := after.drop ws.length
        let pre := (afterW.takeWhile (fun c => c ≠ '\n')).length
        if pre < afterW.length then some (1 + hn + ws.length + pre + 1)
        else
          match lastIdxNl ws with
          | some k => if 1 ≤ k then some (1 + hn + k + 1) else none
          | none => none
  | _ => none

/-- The `re.sub` pass replacing each markdown-header match by a newline. -/
def runSub1 : Nat → List Char → List Char
  | 0, s => s
  | _ + 1, [] => []
  | fuel + 1, c :: cs =>
    match sub1At (c :: cs) with
    | some len => '\n' :: runSub1 fuel ((c :: cs).drop len)
    | none => c :: runSub1 fuel cs

/-- The `re.sub` pass collapsing runs of two or more newlines (line 399). -/
def runSub2 : Nat → List Char → List Char
  | 0, s => s
  | _ + 1, [] => []
  | fuel + 1, '\n' :: cs =>
    let r := (cs.takeWhile (fun c => c = '\n')).length
    if 1 ≤ r then '\n' :: runSub2 fuel (cs.drop r) else '\n' :: runSub2 fuel cs
  | fuel + 1, c :: cs => c :: runSub2 fuel cs

def precleanText (cs : List Char) : List Char :=
  runSub2 (cs.length + 1) (runSub1 (cs.length + 1) cs)

/-- Parse `[A-Z][a-z]+` with maximal munch; returns the consumed
length.  Maximality is safe: every continuation in the patterns using
this starts with whitespace or a parenthesis. -/
def parseCapWord : List Char → Option Nat
  | c :: d :: rest =>
    if c.isUpper && d.isLower then
      some (2 + (rest.takeWhile Char.isLower).length)
    else none
  | _ => none

/-- Parse `\s+[A-Z]?[a-z]+` (one phrase-extension word of pattern 1/2),
trying the optional uppercase letter first. -/
def parseExtWord (s : List Char) : Option Nat :=
  let wl := (s.takeWhile pyIsSpace).length
  if wl = 0 then none
  else
    match s.drop wl with
    | c :: d :: rest =>
      if c.isUpper && d.isLower then
        some (wl + 2 + (rest.takeWhile Char.isLower).length)
      else if c.isLower then
        some (wl + 1 + ((d :: rest).takeWhile Char.isLower).length)
      else none
    | [c] => if c.isLower then some (wl + 1) else none
    | [] => none

/-- Cumulative consumed lengths after each successful extension word,
at most `k` of them (the `{0,7}` bound). -/
def extEnds : Nat → List Char → Nat → List Nat
  | 0, _, _ => []
  | k + 1, s, acc =>
    match parseExtWord s with
    | some n => (acc + n) :: extEnds k (s.drop n) (acc + n)
    | none => []

/-- Pattern 1 `([A-Z][a-z]+(?:\s+[A-Z]?[a-z]+){0,7})\s*\(W\)` tried at
the head of the suffix; greedy repetition backtracks from the most
extensions down.  Returns the captured phrase. -/
def p1at (w : List Char) (s : List Char) : Option (List Char) :=
  match parseCapWord s with
  | some w0 =>
    ((w0 :: extEnds 7 (s.drop w0) w0).reverse).findSome? (fun e =>
      let t := s.drop e
      let t2 := t.drop (t.takeWhile pyIsSpace).length
      if litPre ('(' :: (w ++ [')'])) t2 then some (s.take e) else none)
  | none => none

def p1search (w : List Char) : List Char → Option (List Char)
  | [] => none
  | c :: cs =>
    match p1at w (c :: cs) with
    | some g => some g
    | none => p1search w cs

/-- Pattern 2 `W\s*\(([A-Z][a-z]+(?:\s+[A-Z]?[a-z]+){0,7})\)`. -/
def p2at (w : List Char) (s : List Char) : Option (List Char) :=
  if litPre w s then
    let t := s.drop w.length
    match t.drop (t.takeWhile pyIsSpace).length with
    | '(' :: inner =>
      match parseCapWord inner with
      | some w0 =>
        ((w0 :: extEnds 7 (inner.drop w0) w0).reverse).findSome? (fun e =>
          match inner.drop e with
          | ')' :: _ => some (inner.take e)
          | _ => none)
      | none => none
    | _ => none
  else none

def p2search (w : List Char) : List Char → Option (List Char)
  | [] => none
  | c :: cs =>
    match p2at w (c :: cs) with
    | some g => some g
    | none => p2search w cs

/-- Is a character neither a newline nor a period (the class
`[^\n\.]`)? -/
def notTerm (c : Char) : Bool := c ≠ '\n' && c ≠ '.'

/-- Pattern 3 `W\s*[:\-—]\s*([A-Z][^\n\.]+?)(?:[\n\.]|$)`.  The lazy
plus stops at the first period/newline/end, and must consume at least
one character. -/
def p3at (w : List Char) (s : List Char) : Option (List Char) :=
  if litPre w s then
    let t := s.drop w.length
    match t.drop (t.takeWhile pyIsSpace).length with
    | c :: t2 =>
      if colonDash c then
        match t2.drop (t2.takeWhile pyIsSpace).length with
        | d :: t4 =>
          if d.isUpper then
            let body := t4.takeWhile notTerm
            if 1 ≤ body.length then some (d :: body) else none
          else none
        | [] => none
      else none
    | [] => none
  else none

def p3search (w : List Char) : List Char → Option (List Char)
  | [] => none
  | c :: cs =>
    match p3at w (c :: cs) with
    | some g => some g
    | none => p3search w cs

/-- Pattern 4 `W\s+(?:stands for|means)\s+([A-Z][^\n\.]+?)(?:[\n\.]|$)`
compiled with IGNORECASE, which makes the token, the keyword and the
leading clause letter all case-insensitive. -/
def p4at (w : List Char) (s : List Char) : Option (List Char) :=
  if ciPre w s then
    let t := s.drop w.length
    let wl := (t.takeWhile pyIsSpace).length
    if wl = 0 then none
    else
      let t1 := t.drop wl
      let kwLen : Option Nat :=
        if ciPre "stands for".data t1 then some 10
        else if ciPre "means".data t1 then some 5
        else none
      match kwLen with
      | some k =>
        let t2 := t1.drop k
        let wl2 := (t2.takeWhile pyIsSpace).length
        if wl2 = 0 then none
        else
          match t2.drop wl2 with
          | d :: t4 =>
            if d.isAlpha then
              let body := t4.takeWhile notTerm
              if 1 ≤ body.length then some (d :: body) else none
            else none
          | [] => none
      | none => none
  else none

def p4search (w : List Char) : List Char → Option (List Char)
  | [] => none
  | c :: cs =>
    match p4at w (c :: cs) with
    | some g => some g
    | none => p4search w cs

/-! Pattern 5: first-letter acronym reconstruction
(`_find_first_letter_match`, extractor.py lines 447-473). -/

def sentTerm (c : Char) : Bool := c = '.' || c = '!' || c = '?'

/-- Python `re.split` on `[.!?]+`: pieces between maximal terminator
runs, keeping empty leading/trailing pieces. -/
def sentSplit : Nat → List Char → List (List Char)
  | 0, _ => []
  | fuel + 1, cs =>
    let pre := cs.takeWhile (fun c => !sentTerm c)
    let rest := cs.drop pre.length
    match rest with
    | [] => [pre]
    | _ => pre :: sentSplit fuel (rest.drop (rest.takeWhile sentTerm).length)

/-- Parse `\s+[A-Z][a-z]+` (extension word of the capitalized-run
pattern, uppercase mandatory). -/
def parseExtWordU (s : List Char) : Option Nat :=
  let wl := (s.takeWhile pyIsSpace).length
  if wl = 0 then none
  else
    match s.drop wl with
    | c :: d :: rest =>
      if c.isUpper && d.isLower then
        some (wl + 2 + (rest.takeWhile Char.isLower).length)
      else none
    | _ => none

/-- Total length consumed by a maximal greedy run of extension words. -/
def extAllU : Nat → List Char → Nat → Nat
  | 0, _, acc => acc
  | fuel + 1, s, acc =>
    match parseExtWordU s with
    | some n => extAllU fuel (s.drop n) (acc + n)
    | none => acc

/-- findall of `\b[A-Z][a-z]+(?:\s+[A-Z][a-z]+)*` over one sentence. -/
def capsRunsScan : Nat → Bool → List Char → List (List Char)
  | 0, _, _ => []
  | _ + 1, _, [] => []
  | fuel + 1, prevW, c :: cs =>
    if !prevW then
      match parseCapWord (c :: cs) with
      | some w0 =>
        let total := extAllU (cs.length + 1) ((c :: cs).drop w0) w0
        (c :: cs).take total :: capsRunsScan fuel true ((c :: cs).drop total)
      | none => capsRunsScan fuel (isWordChar c) cs
    else capsRunsScan fuel (isWordChar c) cs

/-- Try every length-matching contiguous sub-sequence of a word list;
accept when the first letters spell the token and the reconstruction
is long enough (extractor.py lines 456-471). -/
def fbTrySeq (w : List Char) (wordList : List (List Char)) : Option (List Char) :=
  if wordList.length < w.length then none
  else
    (List.range (wordList.length - w.length + 1)).findSome? (fun i =>
      let seq := (wordList.drop i).take w.length
      if seq.map (fun word => word.headD 'a') = w then
        let result := joinWords seq
        if w.length + 2 < result.length then some result else none
      else none)

/-- Model of `_find_first_letter_match` (extractor.py lines 447-473). -/
def find_first_letter_match (text : List Char) (w : String) : Option String :=
  ((sentSplit (text.length + 1) text).findSome? (fun sentence =>
    (capsRunsScan (sentence.length + 1) false sentence).findSome? (fun run =>
      fbTrySeq w.data (pySplitWs (run.length + 1) run)))).map String.mk

/-- Model of `_find_definition` (extractor.py lines 395-445): pre-clean, then
try strategies 1-5 in order; a strategy whose guard rejects its match
falls through to the next one. -/
def find_definition (text : List Char) (w : String) : Option String :=
  let t := precleanText text
  match
    (match p1search w.data t with
     | some g =>
       let d := pyStrip g
       if 3 < d.length && !pyIsUpper d then some d else none
     | none => none) with
  | some d => some (String.mk d)
  | none =>
    match
      (match p2search w.data t with
       | some g =>
         let d := pyStrip g
         if 3 < d.length && !pyIsUpper d then some d else none
       | none => none) with
    | some d => some (String.mk d)
    | none =>
      match
        (match p3search w.data t with
         | some g =>
           let result := pyStrip (joinWords ((pySplitWs (g.length + 1) g).take 10))
           if 3 < result.length then some result else none
         | none => none) with
      | some d => some (String.mk d)
      | none =>
        match
          (match p4search w.data t with
           | some g =>
             some (pyStrip (joinWords ((pySplitWs (g.length + 1) g).take 10)))
           | none => none) with
        | some d => some (String.mk d)
        | none => find_first_letter_match t w

/-! ### Confidence scorer (`_calculate_confidence_score`, extractor.py
lines 188-226).  Python float arithmetic is modelled by exact rational
arithmetic; the modelled configuration has no BERT backend
(HAS_BERT is false), so the semantic-similarity term is absent. -/

/-- Python truthiness of an optional string: neither None nor empty. -/
def defTruthy : Option String → Bool
  | none => false
  | some s => s ≠ ""

/-- Search for `\bKW\b.*D` under IGNORECASE, where `KW` is a keyword
whose first and last characters are letters and `D` is the escaped
definition: a boundary-delimited occurrence of the keyword followed,
with no intervening newline, by the definition. -/
def ciFromNoNl (d : List Char) : List Char → Bool
  | [] => ciPre d []
  | c :: cs => ciPre d (c :: cs) || (c ≠ '\n' && ciFromNoNl d cs)

def kwDefScan (kw d : List Char) : Nat → Bool → List Char → Bool
  | 0, _, _ => false
  | _ + 1, _, [] => false
  | fuel + 1, prevW, c :: cs =>
    (!prevW && ciPre kw (c :: cs) &&
      boundaryAfter ((c :: cs).drop kw.length) &&
      ciFromNoNl d ((c :: cs).drop kw.length)) ||
    kwDefScan kw d fuel (isWordChar c) cs

def kwDefSearch (kw : String) (text : List Char) (d : List Char) : Bool :=
  kwDefScan kw.data d (text.length + 1) false text

/-- Python builtin `max` on two floats, modelled on rationals. -/
def pyMax (a b : ℚ) : ℚ := if a < b then b else a

/-- Python builtin `min` on two floats, modelled on rationals. -/
def pyMin (a b : ℚ) : ℚ := if b < a then b else a

/-- Model of `_calculate_confidence_score` (extractor.py lines 188-226). -/
def calculate_confidence_score (w : String) (definition : Option String)
    (text : List Char) (position : Int) : ℚ :=
  let s0 : ℚ := 1/2
  let s1 : ℚ :=
    if defTruthy definition then
      s0 + 3/10
        + (if kwDefSearch "stands for" text (definition.getD "").data
           then 3/20 else 0)
        + (if kwDefSearch "means" text (definition.getD "").data
           then 3/20 else 0)
    else s0
  let s2 := s1 + (if (position : ℚ) < (text.length : ℚ) * (1/5) then 1/10 else 0)
  let s3 := s2 + (if w.data.any Char.isDigit then 1/10 else 0)
  let s4 := s3 + (if 2 ≤ w.length && w.length ≤ 4 then 1/20 else 0)
  let s5 := s4 - (if 7 < w.length then 1/5 else 0)
  pyMin 1 (pyMax 0 s5)

/-! ### Corpus aggregator (`Extractor`, extractor.py lines 83-519). -/

/-- One stored abbreviation record (the per-token dict of
extractor.py lines 373-379). -/
structure Record where
  definition : Option String
  files : List String
  count : Nat
  confidence : ℚ
  first_position : Int
  deriving DecidableEq, Repr

/-- The insertion-ordered abbreviation dictionary. -/
abbrev AbbrevMap := List (String × Record)

/-- The extractor state (`Extractor.__init__`, lines 135-140). -/
structure Extractor where
  min_length : Int
  max_length : Int
  use_api : Bool
  abbreviations : AbbrevMap
  api_cache : List (String × Option String)
  deriving DecidableEq

/-- Model of `Extractor.__init__` (extractor.py lines 135-140): no validation
of the bounds is performed; the arguments are stored as given. -/
def Extractor.init (min_length : Int) (max_length : Int)
    (use_api : Bool) : Extractor :=
  { min_length := min_length, max_length := max_length, use_api := use_api,
    abbreviations := [], api_cache := [] }

/-- Dictionary lookup. -/
def alookup (k : String) : AbbrevMap → Option Record
  | [] => none
  | (a, r) :: xs => if a = k then some r else alookup k xs

/-- Dictionary update of an existing key, in place. -/
def aset (k : String) (v : Record) : AbbrevMap → AbbrevMap
  | [] => []
  | (a, r) :: xs => if a = k then (a, v) :: xs else (a, r) :: aset k v xs

/-- Association-list lookup for the API cache. -/
def clookup (k : String) : List (String × Option String) → Option (Option String)
  | [] => none
  | (a, v) :: xs => if a = k then some v else clookup k xs

/-- Set a key in the API cache (insert or overwrite). -/
def cset (k : String) (v : Option String) :
    List (String × Option String) → List (String × Option String)
  | [] => [(k, v)]
  | (a, w) :: xs => if a = k then (a, v) :: xs else (a, w) :: cset k v xs

/-- Model of `_validate_with_api` (extractor.py lines 163-186).  The network
call is abstracted by the oracle `net`, which returns the definition
the service would yield, if any; on a missing or failed response the
source caches None. -/
def validate_with_api (net : String → Option String) (use_api : Bool)
    (cache : List (String × Option String)) (w : String) :
    Option String × List (String × Option String) :=
  if !use_api then (none, cache)
  else
    match clookup w cache with
    | some v => (v, cache)
    | none =>
      match net w with
      | some d => (some d, cset w (some d) cache)
      | none => (none, cset w none cache)

/-- The store-or-update of one accepted sighting (extractor.py lines
370-391): a new token is appended with count equal to its in-file
frequency; an existing one has its count incremented, the file added
if new and non-empty, the definition adopted only when the stored one
is falsy and the new one truthy, and the confidence raised to the
maximum. -/
def storeOccurrence (m : AbbrevMap) (w : String) (definition : Option String)
    (freq : Nat) (confidence : ℚ) (position : Int) (source_file : String) :
    AbbrevMap :=
  match alookup w m with
  | none =>
    m ++ [(w, { definition := definition,
                files := if source_file ≠ "" then [source_file] else [],
                count := freq, confidence := confidence,
                first_position := position })]
  | some r =>
    aset w
      { r with
        count := r.count + freq,
        files := if source_file ≠ "" ∧ source_file ∉ r.files
                 then r.files ++ [source_file] else r.files,
        definition := if defTruthy definition ∧ ¬defTruthy r.definition
                      then definition else r.definition,
        confidence := if r.confidence < confidence
                      then confidence else r.confidence } m

/-- The api-validation adjustment of the found definition (extractor.py
lines 360-364), returning the definition to score and the new cache. -/
def apiAdjust (net : String → Option String) (st : Extractor) (w : String)
    (d0 : Option String) : Option String × List (String × Option String) :=
  if d0 = none ∧ st.use_api then
    let r := validate_with_api net st.use_api st.api_cache w
    (if defTruthy r.1 then r.1 else d0, r.2)
  else (d0, st.api_cache)

/-- The body of the candidate loop of `extract_from_text`
(extractor.py lines 341-391) for one `(token, position)` candidate. -/
def extractStep (net : String → Option String) (text : List Char)
    (source_file : String) (cnt : String → Nat) (st : Extractor)
    (m : String × Int) : Extractor :=
  let w := m.1
  let position := m.2
  let clean := removeCh '.' (removeCh '-' w.data)
  if ¬(st.min_length ≤ (clean.length : Int) ∧
       (clean.length : Int) ≤ st.max_length) then st
  else if 50 < cnt w then st
  else if cnt w = 1 ∧ 5 < w.length then st
  else if ¬is_likely_abbreviation w text then st
  else
    let a := apiAdjust net st w (find_definition text w)
    let confidence := calculate_confidence_score w a.1 text position
    if 2/5 ≤ confidence then
      { st with
        abbreviations :=
          storeOccurrence st.abbreviations w a.1 (cnt w) confidence
            position source_file,
        api_cache := a.2 }
    else { st with api_cache := a.2 }

/-- Model of `Extractor.extract_from_text` (extractor.py lines 314-393): build
the candidate list, fold the loop body over it, and return the whole
accumulated mapping together with the new state. -/
def extract_from_text (net : String → Option String) (st : Extractor)
    (text : String) (source_file : String) : AbbrevMap × Extractor :=
  let ms := matchesOf st.min_length st.max_length text.data
  let st2 := ms.foldl (extractStep net text.data source_file (countsOf ms)) st
  (st2.abbreviations, st2)

/-- Model of `Extractor.clear` (extractor.py lines 517-519). -/
def Extractor.clear (st : Extractor) : Extractor :=
  { st with abbreviations := [] }

/-! ### Derived notions used to state and prove the properties -/

/-- The occurrence-count view of one token in the dictionary. -/
def cview (m : AbbrevMap) (t : String) : Option Nat :=
  (alookup t m).map (fun r => r.count)

/-- The source-files view of one token in the dictionary. -/
def fview (m : AbbrevMap) (t : String) : Option (List String) :=
  (alookup t m).map (fun r => r.files)

/-- The file-list update performed by one accepted sighting. -/
def addFile (l : List String) (f : String) : List String :=
  if f ≠ "" ∧ f ∉ l then l ++ [f] else l

/-- Acceptance of one candidate occurrence in `extract_from_text` when
the API is disabled: it survives every filter and the confidence
threshold. -/
def occAccept (minL maxL : Int) (cnt : String → Nat) (text : List Char)
    (w : String) (p : Int) : Prop :=
  (minL ≤ ((removeCh '.' (removeCh '-' w.data)).length : Int) ∧
    ((removeCh '.' (removeCh '-' w.data)).length : Int) ≤ maxL) ∧
  ¬(50 < cnt w) ∧ ¬(cnt w = 1 ∧ 5 < w.length) ∧
  is_likely_abbreviation w text = true ∧
  2/5 ≤ calculate_confidence_score w (find_definition text w) text p

instance (minL maxL : Int) (cnt : String → Nat) (text : List Char)
    (w : String) (p : Int) : Decidable (occAccept minL maxL cnt text w p) := by
  unfold occAccept
  infer_instance

/-- Number of accepted occurrences of token `t` in a candidate list. -/
def hitsIn (minL maxL : Int) (cnt : String → Nat) (text : List Char)
    (t : String) (ms : List (String × Int)) : Nat :=
  ms.countP (fun mp => decide (mp.1 = t ∧ occAccept minL maxL cnt text mp.1 mp.2))

/-- Every stored record has confidence between the acceptance
threshold and 1. -/
def ConfOK (m : AbbrevMap) : Prop :=
  ∀ t r, alookup t m = some r → 2/5 ≤ r.confidence ∧ r.confidence ≤ 1

/-- Ingest one file: the state transition of `extract_from_text`. -/
def ingest (net : String → Option String) (st : Extractor)
    (text source_file : String) : Extractor :=
  (extract_from_text net st text source_file).2

/-- Run a sequence of `extract_from_text` calls. -/
def runCalls (net : String → Option String) (st : Extractor) :
    List (String × String) → Extractor
  | [] => st
  | c :: cs => runCalls net (ingest net st c.1 c.2) cs

/-! ### Dictionary lemmas -/

theorem alookup_aset_ne {t k : String} (h : t ≠ k) (v : Record) (m : AbbrevMap) :
    alookup t (aset k v m) = alookup t m := by
  induction m with
  | nil => rfl
  | cons hd tl ih =>
    obtain ⟨a, r⟩ := hd
    by_cases hak : a = k
    · subst hak
      simp only [aset, if_pos rfl, alookup, if_neg (Ne.symm h)]
    · simp only [aset, if_neg hak, alookup]
      by_cases hat : a = t
      · simp [hat]
      · simp [hat, ih]

theorem alookup_aset_self {k : String} {m : AbbrevMap} {r : Record}
    (h : alookup k m = some r) (v : Record) :
    alookup k (aset k v m) = some v := by
  induction m with
  | nil => simp [alookup] at h
  | cons hd tl ih =>
    obtain ⟨a, r0⟩ := hd
    by_cases hak : a = k
    · simp [aset, hak, alookup]
    · simp only [alookup, if_neg hak] at h
      simp only [aset, if_neg hak, alookup, if_neg hak]
      exact ih h

theorem alookup_append_ne {t w : String} (h : t ≠ w) (v : Record) (m : AbbrevMap) :
    alookup t (m ++ [(w, v)]) = alookup t m := by
  induction m with
  | nil => simp [alookup, if_neg (Ne.symm h)]
  | cons hd tl ih =>
    obtain ⟨a, r⟩ := hd
    by_cases hat : a = t
    · simp [alookup, hat]
    · simp [alookup, hat, ih]

theorem alookup_append_self {w : String} {m : AbbrevMap}
    (h : alookup w m = none) (v : Record) :
    alookup w (m ++ [(w, v)]) = some v := by
  induction m with
  | nil => simp [alookup]
  | cons hd tl ih =>
    obtain ⟨a, r⟩ := hd
    simp only [alookup] at h ⊢
    by_cases haw : a = w
    · simp [haw] at h
    · simp only [if_neg haw] at h ⊢
      exact ih h

theorem alookup_store_ne {t w : String} (h : t ≠ w) (m : AbbrevMap)
    (d : Option String) (freq : Nat) (c : ℚ) (p : Int) (sf : String) :
    alookup t (storeOccurrence m w d freq c p sf) = alookup t m := by
  unfold storeOccurrence
  cases hw : alookup w m with
  | none => exact alookup_append_ne h _ m
  | some r => exact alookup_aset_ne h _ m

/-- Characterization of the stored record at the updated key. -/
theorem alookup_store_self (m : AbbrevMap) (w : String) (d : Option String)
    (freq : Nat) (c : ℚ) (p : Int) (sf : String) :
    alookup w (storeOccurrence m w d freq c p sf) =
      match alookup w m with
      | none => some { definition := d,
                       files := if sf ≠ "" then [sf] else [],
                       count := freq, confidence := c, first_position := p }
      | some r => some { definition := if defTruthy d ∧ ¬defTruthy r.definition
                                       then d else r.definition,
                         files := if sf ≠ "" ∧ sf ∉ r.files
                                  then r.files ++ [sf] else r.files,
                         count := r.count + freq,
                         confidence := if r.confidence < c then c else r.confidence,
                         first_position := r.first_position } := by
  unfold storeOccurrence
  cases hw : alookup w m with
  | none => exact alookup_append_self hw _
  | some r => exact alookup_aset_self hw _

/-! ### Per-candidate step lemmas -/

theorem extractStep_config (net : String → Option String) (text : List Char)
    (sf : String) (cnt : String → Nat) (st : Extractor) (mp : String × Int) :
    (extractStep net text sf cnt st mp).min_length = st.min_length ∧
    (extractStep net text sf cnt st mp).max_length = st.max_length ∧
    (extractStep net text sf cnt st mp).use_api = st.use_api := by
  refine ⟨?_, ?_, ?_⟩ <;> (simp only [extractStep]; repeat' split) <;> rfl

/-- With the API disabled the candidate loop body reduces to a single
accept-or-skip decision. -/
theorem extractStep_no_api {st : Extractor} (h : st.use_api = false)
    (net : String → Option String) (text : List Char) (sf : String)
    (cnt : String → Nat) (mp : String × Int) :
    extractStep net text sf cnt st mp =
      if occAccept st.min_length st.max_length cnt text mp.1 mp.2 then
        { st with abbreviations :=
            (storeOccurrence st.abbreviations mp.1 (find_definition text mp.1)
              (cnt mp.1)
              (calculate_confidence_score mp.1 (find_definition text mp.1) text mp.2)
              mp.2 sf) }
      else st := by
  obtain ⟨w, p⟩ := mp
  have hapi : apiAdjust net st w (find_definition text w) =
      (find_definition text w, st.api_cache) := by
    unfold apiAdjust
    simp [h]
  simp only [extractStep, occAccept, hapi]
  split_ifs <;> first | rfl | tauto

theorem cview_store_self (m : AbbrevMap) (w : String) (d : Option String)
    (freq : Nat) (c : ℚ) (p : Int) (sf : String) :
    cview (storeOccurrence m w d freq c p sf) w =
      some ((cview m w).getD 0 + freq) := by
  unfold cview
  rw [alookup_store_self]
  cases h : alookup w m with
  | none => simp
  | some r => simp

theorem fview_store_self (m : AbbrevMap) (w : String) (d : Option String)
    (freq : Nat) (c : ℚ) (p : Int) (sf : String) :
    fview (storeOccurrence m w d freq c p sf) w =
      some (addFile ((fview m w).getD []) sf) := by
  unfold fview
  rw [alookup_store_self]
  cases h : alookup w m with
  | none => simp [addFile]
  | some r => simp [addFile]

theorem isSome_store {t : String} {m : AbbrevMap}
    (h : (alookup t m).isSome) (w : String) (d : Option String)
    (freq : Nat) (c : ℚ) (p : Int) (sf : String) :
    (alookup t (storeOccurrence m w d freq c p sf)).isSome := by
  by_cases hwt : t = w
  · subst hwt
    rw [alookup_store_self]
    cases alookup t m <;> simp
  · rw [alookup_store_ne hwt]
    exact h

/-! ### View lemmas for one step and for the candidate fold -/

theorem cview_extractStep {st : Extractor} (h : st.use_api = false)
    (net : String → Option String) (text : List Char) (sf : String)
    (cnt : String → Nat) (mp : String × Int) (t : String) :
    cview (extractStep net text sf cnt st mp).abbreviations t =
      if mp.1 = t ∧ occAccept st.min_length st.max_length cnt text mp.1 mp.2
      then some ((cview st.abbreviations t).getD 0 + cnt mp.1)
      else cview st.abbreviations t := by
  rw [extractStep_no_api h]
  by_cases hacc : occAccept st.min_length st.max_length cnt text mp.1 mp.2
  · rw [if_pos hacc]
    by_cases hwt : mp.1 = t
    · subst hwt
      rw [if_pos ⟨rfl, hacc⟩]
      exact cview_store_self ..
    · rw [if_neg (by tauto)]
      unfold cview
      rw [alookup_store_ne (fun he => hwt he.symm)]
  · rw [if_neg hacc, if_neg (by tauto)]

theorem fview_extractStep {st : Extractor} (h : st.use_api = false)
    (net : String → Option String) (text : List Char) (sf : String)
    (cnt : String → Nat) (mp : String × Int) (t : String) :
    fview (extractStep net text sf cnt st mp).abbreviations t =
      if mp.1 = t ∧ occAccept st.min_length st.max_length cnt text mp.1 mp.2
      then some (addFile ((fview st.abbreviations t).getD []) sf)
      else fview st.abbreviations t := by
  rw [extractStep_no_api h]
  by_cases hacc : occAccept st.min_length st.max_length cnt text mp.1 mp.2
  · rw [if_pos hacc]
    by_cases hwt : mp.1 = t
    · subst hwt
      rw [if_pos ⟨rfl, hacc⟩]
      exact fview_store_self ..
    · rw [if_neg (by tauto)]
      unfold fview
      rw [alookup_store_ne (fun he => hwt he.symm)]
  · rw [if_neg hacc, if_neg (by tauto)]

theorem foldl_config (net : String → Option String) (text : List Char)
    (sf : String) (cnt : String → Nat) :
    ∀ (ms : List (String × Int)) (st : Extractor),
    (ms.foldl (extractStep net text sf cnt) st).min_length = st.min_length ∧
    (ms.foldl (extractStep net text sf cnt) st).max_length = st.max_length ∧
    (ms.foldl (extractStep net text sf cnt) st).use_api = st.use_api := by
  intro ms
  induction ms with
  | nil => exact fun st => ⟨rfl, rfl, rfl⟩
  | cons mp ms ih =>
    intro st
    obtain ⟨h1, h2, h3⟩ := ih (extractStep net text sf cnt st mp)
    obtain ⟨g1, g2, g3⟩ := extractStep_config net text sf cnt st mp
    exact ⟨h1.trans g1, h2.trans g2, h3.trans g3⟩

theorem cview_foldl (net : String → Option String) (text : List Char)
    (sf : String) (cnt : String → Nat) (t : String) :
    ∀ (ms : List (String × Int)) (st : Extractor), st.use_api = false →
    cview ((ms.foldl (extractStep net text sf cnt) st).abbreviations) t =
      (if hitsIn st.min_length st.max_length cnt text t ms = 0
       then cview st.abbreviations t
       else some ((cview st.abbreviations t).getD 0 +
         hitsIn st.min_length st.max_length cnt text t ms * cnt t)) := by
  intro ms
  induction ms with
  | nil =>
    intro st _
    simp [hitsIn]
  | cons mp ms ih =>
    intro st hapi
    obtain ⟨g1, g2, g3⟩ := extractStep_config net text sf cnt st mp
    have ih2 := ih (extractStep net text sf cnt st mp) (g3.trans hapi)
    rw [g1, g2] at ih2
    have hstep := cview_extractStep hapi net text sf cnt mp t
    have hcnt : hitsIn st.min_length st.max_length cnt text t (mp :: ms) =
        hitsIn st.min_length st.max_length cnt text t ms +
          (if mp.1 = t ∧ occAccept st.min_length st.max_length cnt text mp.1 mp.2
           then 1 else 0) := by
      simp only [hitsIn, List.countP_cons, decide_eq_true_eq]
    by_cases hhit : mp.1 = t ∧ occAccept st.min_length st.max_length cnt text mp.1 mp.2
    · rw [if_pos hhit] at hstep
      rw [List.foldl_cons, ih2, hstep, hcnt, if_pos hhit]
      have hct : cnt mp.1 = cnt t := by rw [hhit.1]
      rw [hct]
      by_cases hz : hitsIn st.min_length st.max_length cnt text t ms = 0
      · rw [if_pos hz, hz]
        simp
      · rw [if_neg hz, if_neg (by omega)]
        simp only [Option.getD_some]
        congr 1
        ring
    · rw [if_neg hhit] at hstep
      rw [List.foldl_cons, ih2, hstep, hcnt, if_neg hhit]
      simp

theorem fview_foldl (net : String → Option String) (text : List Char)
    (sf : String) (cnt : String → Nat) (t : String) :
    ∀ (ms : List (String × Int)) (st : Extractor), st.use_api = false →
    fview ((ms.foldl (extractStep net text sf cnt) st).abbreviations) t =
      (if hitsIn st.min_length st.max_length cnt text t ms = 0
       then fview st.abbreviations t
       else some (addFile ((fview st.abbreviations t).getD []) sf)) := by
  intro ms
  induction ms with
  | nil =>
    intro st _
    simp [hitsIn]
  | cons mp ms ih =>
    intro st hapi
    obtain ⟨g1, g2, g3⟩ := extractStep_config net text sf cnt st mp
    have ih2 := ih (extractStep net text sf cnt st mp) (g3.trans hapi)
    rw [g1, g2] at ih2
    have hstep := fview_extractStep hapi net text sf cnt mp t
    have hcnt : hitsIn st.min_length st.max_length cnt text t (mp :: ms) =
        hitsIn st.min_length st.max_length cnt text t ms +
          (if mp.1 = t ∧ occAccept st.min_length st.max_length cnt text mp.1 mp.2
           then 1 else 0) := by
      simp only [hitsIn, List.countP_cons, decide_eq_true_eq]
    by_cases hhit : mp.1 = t ∧ occAccept st.min_length st.max_length cnt text mp.1 mp.2
    · rw [if_pos hhit] at hstep
      rw [List.foldl_cons, ih2, hstep, hcnt, if_pos hhit]
      by_cases hz : hitsIn st.min_length st.max_length cnt text t ms = 0
      · rw [if_pos hz, hz]
        simp
      · rw [if_neg hz, if_neg (by omega)]
        simp only [Option.getD_some]
        congr 1
        unfold addFile
        by_cases hsf : sf = ""
        · simp [hsf]
        · by_cases hmem : sf ∈ (fview st.abbreviations t).getD []
          · simp [hsf, hmem]
          · simp [hsf, hmem]
    · rw [if_neg hhit] at hstep
      rw [List.foldl_cons, ih2, hstep, hcnt, if_neg hhit]
      simp

/-! ### Confidence bounds and invariant preservation -/

theorem pyMin_le_left (a b : ℚ) : pyMin a b ≤ a := by
  unfold pyMin
  split
  · exact le_of_lt (by assumption)
  · exact le_refl a

theorem calc_conf_le_one (w : String) (d : Option String) (text : List Char)
    (p : Int) : calculate_confidence_score w d text p ≤ 1 := by
  unfold calculate_confidence_score
  exact pyMin_le_left 1 _

theorem store_ConfOK {m : AbbrevMap} (hm : ConfOK m) {c : ℚ}
    (hc1 : 2/5 ≤ c) (hc2 : c ≤ 1) (w : String) (d : Option String)
    (freq : Nat) (p : Int) (sf : String) :
    ConfOK (storeOccurrence m w d freq c p sf) := by
  intro t r hr
  by_cases htw : t = w
  · subst htw
    rw [alookup_store_self] at hr
    cases hm0 : alookup t m with
    | none =>
      rw [hm0] at hr
      simp only [Option.some.injEq] at hr
      rw [← hr]
      exact ⟨hc1, hc2⟩
    | some r0 =>
      have hb := hm t r0 hm0
      rw [hm0] at hr
      simp only [Option.some.injEq] at hr
      rw [← hr]
      simp only []
      split_ifs with hlt
      · exact ⟨hc1, hc2⟩
      · exact hb
  · rw [alookup_store_ne htw] at hr
    exact hm t r hr

theorem extractStep_ConfOK {st : Extractor} (hm : ConfOK st.abbreviations)
    (net : String → Option String) (text : List Char) (sf : String)
    (cnt : String → Nat) (mp : String × Int) :
    ConfOK (extractStep net text sf cnt st mp).abbreviations := by
  simp only [extractStep]
  split_ifs with h1 h2 h3 h4 h5
  · exact hm
  · exact hm
  · exact store_ConfOK hm h5 (calc_conf_le_one mp.1 _ text mp.2) mp.1 _ (cnt mp.1) mp.2 sf
  · exact hm
  · exact hm
  · exact hm

theorem foldl_ConfOK (net : String → Option String) (text : List Char)
    (sf : String) (cnt : String → Nat) :
    ∀ (ms : List (String × Int)) (st : Extractor), ConfOK st.abbreviations →
    ConfOK ((ms.foldl (extractStep net text sf cnt) st).abbreviations) := by
  intro ms
  induction ms with
  | nil => exact fun st h => h
  | cons mp ms ih =>
    intro st hm
    exact ih _ (extractStep_ConfOK hm net text sf cnt mp)

theorem runCalls_ConfOK (net : String → Option String) :
    ∀ (calls : List (String × String)) (st : Extractor),
    ConfOK st.abbreviations → ConfOK (runCalls net st calls).abbreviations := by
  intro calls
  induction calls with
  | nil => exact fun st h => h
  | cons c cs ih =>
    intro st hm
    exact ih _ (foldl_ConfOK net c.1.data c.2 _ _ st hm)

/-! ### Skip and presence lemmas for single candidates -/

/-- A candidate occurrence of a token filtered out by the per-file
frequency rules leaves that token's entry untouched, as does any
occurrence of a different token. -/
theorem alookup_extractStep_skip {t : String} (net : String → Option String)
    (text : List Char) (sf : String) (cnt : String → Nat) (st : Extractor)
    (mp : String × Int)
    (h : mp.1 = t → 50 < cnt t ∨ (cnt t = 1 ∧ 5 < t.length)) :
    alookup t (extractStep net text sf cnt st mp).abbreviations =
      alookup t st.abbreviations := by
  by_cases hwt : mp.1 = t
  · have hd := h hwt
    simp only [extractStep]
    split_ifs with h1 h2 h3 h4 h5 <;> try rfl
    exfalso
    rw [hwt] at h2 h3
    tauto
  · simp only [extractStep]
    split_ifs <;> first | rfl | (exact alookup_store_ne (fun he => hwt he.symm) ..)

theorem isSome_extractStep {t : String} {st : Extractor}
    (h : (alookup t st.abbreviations).isSome) (net : String → Option String)
    (text : List Char) (sf : String) (cnt : String → Nat) (mp : String × Int) :
    (alookup t (extractStep net text sf cnt st mp).abbreviations).isSome := by
  simp only [extractStep]
  split_ifs <;> first | exact h | (exact isSome_store h ..)

theorem isSome_foldl {t : String} (net : String → Option String)
    (text : List Char) (sf : String) (cnt : String → Nat) :
    ∀ (ms : List (String × Int)) (st : Extractor),
    (alookup t st.abbreviations).isSome →
    (alookup t ((ms.foldl (extractStep net text sf cnt) st).abbreviations)).isSome := by
  intro ms
  induction ms with
  | nil => exact fun st h => h
  | cons mp ms ih =>
    intro st hm
    exact ih _ (isSome_extractStep hm net text sf cnt mp)

/-! ### File sets -/

theorem addFile_toFinset (l : List String) (f : String) :
    (addFile l f).toFinset = if f = "" then l.toFinset else insert f l.toFinset := by
  by_cases hf : f = ""
  · simp [addFile, hf]
  · by_cases hm : f ∈ l
    · have hng : ¬(f ≠ "" ∧ f ∉ l) := by tauto
      rw [addFile, if_neg hng, if_neg hf]
      exact (Finset.insert_eq_self.mpr (List.mem_toFinset.mpr hm)).symm
    · rw [addFile, if_pos ⟨hf, hm⟩, if_neg hf]
      simp [List.toFinset_append, Finset.insert_eq, Finset.union_comm]

/-- Every candidate occurrence of a token with an out-of-bounds clean
length is skipped, so with `max_length < min_length` the whole fold is
the identity. -/
theorem extractStep_bounds_skip {st : Extractor} (h : st.max_length < st.min_length)
    (net : String → Option String) (text : List Char) (sf : String)
    (cnt : String → Nat) (mp : String × Int) :
    extractStep net text sf cnt st mp = st := by
  simp only [extractStep]
  rw [if_pos]
  intro hc
  exact absurd (le_trans hc.1 hc.2) (not_le.mpr h)

theorem foldl_bounds_skip (net : String → Option String) (text : List Char)
    (sf : String) (cnt : String → Nat) :
    ∀ (ms : List (String × Int)) (st : Extractor), st.max_length < st.min_length →
    ms.foldl (extractStep net text sf cnt) st = st := by
  intro ms
  induction ms with
  | nil => exact fun st _ => rfl
  | cons mp ms ih =>
    intro st h
    rw [List.foldl_cons, extractStep_bounds_skip h, ih st h]

theorem c5_aux (net : String → Option String) (text : List Char) (sf : String)
    (cnt : String → Nat) (t : String)
    (h : 50 < cnt t ∨ (cnt t = 1 ∧ 5 < t.length)) :
    ∀ (ms : List (String × Int)) (st : Extractor),
    alookup t ((ms.foldl (extractStep net text sf cnt) st).abbreviations) =
      alookup t st.abbreviations := by
  intro ms
  induction ms with
  | nil => exact fun st => rfl
  | cons mp ms ih =>
    intro st
    rw [List.foldl_cons, ih, alookup_extractStep_skip net text sf cnt st mp (fun _ => h)]

/-! ### The claims -/

/-- C1: asymmetric merge rule.  For a token already present in the
aggregator, an accepted sighting replaces the stored definition only
when the previously stored definition is null or empty and the new one
is non-null, while the stored confidence is independently updated to
the maximum of the existing and the new value regardless of whether
the definition was replaced.  (The hypothesis `d ≠ some ""` records
that the definition locator never produces an empty string.) -/
theorem c1_asymmetric_merge (m : AbbrevMap) (w : String) (d : Option String)
    (freq : Nat) (conf : ℚ) (pos : Int) (sf : String) (old : Record)
    (hold : alookup w m = some old) (hne : d ≠ some "") (_hacc : 2/5 ≤ conf) :
    ∃ r, alookup w (storeOccurrence m w d freq conf pos sf) = some r ∧
      r.definition = (if d ≠ none ∧ (old.definition = none ∨ old.definition = some "")
                      then d else old.definition) ∧
      r.confidence = max old.confidence conf := by
  rw [alookup_store_self, hold]
  refine ⟨_, rfl, ?_, ?_⟩
  · show (if defTruthy d ∧ ¬defTruthy old.definition then d else old.definition) = _
    cases d with
    | none => simp [defTruthy]
    | some s =>
      have hs : s ≠ "" := fun hh => hne (by rw [hh])
      cases hod : old.definition with
      | none => simp [defTruthy, hs]
      | some u =>
        by_cases hu : u = ""
        · subst hu
          simp [defTruthy, hs]
        · simp [defTruthy, hs, hu]
  · show (if old.confidence < conf then conf else old.confidence) = _
    rcases le_or_lt conf old.confidence with hle | hlt
    · rw [if_neg (not_lt.mpr hle)]
      exact (max_eq_left hle).symm
    · rw [if_pos hlt]
      exact (max_eq_right (le_of_lt hlt)).symm

/-- Witness for C1 at a concrete stored record and sighting. -/
theorem c1_asymmetric_merge_witness :
    alookup "AB" [("AB", ⟨none, ["a"], 1, 1/2, 0⟩)] =
      some (⟨none, ["a"], 1, 1/2, 0⟩ : Record) ∧
    (some "Alpha Beta" : Option String) ≠ some "" ∧ (2/5 : ℚ) ≤ 9/10 ∧
    (∃ r, alookup "AB" (storeOccurrence [("AB", ⟨none, ["a"], 1, 1/2, 0⟩)] "AB"
        (some "Alpha Beta") 2 (9/10) 5 "b") = some r ∧
      r.definition = (if (some "Alpha Beta" : Option String) ≠ none ∧
          ((⟨none, ["a"], 1, 1/2, 0⟩ : Record).definition = none ∨
           (⟨none, ["a"], 1, 1/2, 0⟩ : Record).definition = some "")
          then some "Alpha Beta" else (⟨none, ["a"], 1, 1/2, 0⟩ : Record).definition) ∧
      r.confidence = max (⟨none, ["a"], 1, 1/2, 0⟩ : Record).confidence (9/10)) :=
  ⟨by with_unfolding_all decide, by decide, by with_unfolding_all decide,
   c1_asymmetric_merge _ "AB" (some "Alpha Beta") 2 (9/10) 5 "b" _
     (by with_unfolding_all decide) (by decide) (by with_unfolding_all decide)⟩

/-- C3: definition round-trip.  Extracting from the text
"Application Programming Interface (API) is a contract." produces, for
token API, the stored definition "Application Programming Interface"
and a stored confidence of at least 0.8 (it is exactly 0.85), the
semantic-similarity capability being absent from the model. -/
theorem c3_definition_round_trip :
    ∃ r, alookup "API" (extract_from_text (fun _ => none) (Extractor.init 2 10 false)
        "Application Programming Interface (API) is a contract." "doc1").1 = some r ∧
      r.definition = some "Application Programming Interface" ∧
      (4/5 : ℚ) ≤ r.confidence :=
  ⟨⟨some "Application Programming Interface", ["doc1"], 1, 17/20, 35⟩,
   by with_unfolding_all decide, rfl, by with_unfolding_all decide⟩

/-- C4 counterexample: on the text "The Federal Bureau of
Investigation arrested him." the first-letter strategy does NOT return
"Federal Bureau of Investigation": the lowercase word "of" breaks the
run of consecutively capitalized words the strategy scans for, so no
candidate sequence spells FBI. -/
theorem c4_counterexample :
    find_first_letter_match
      "The Federal Bureau of Investigation arrested him.".data "FBI" ≠
      some "Federal Bureau of Investigation" := by decide

/-- C4 (amended): on that text the first-letter strategy finds no
definition at all — the capitalized runs are "The Federal Bureau" and
"Investigation", whose length-3 first-letter sequences never spell
FBI.  (On "The Federal Bureau Investigation arrested him." the
strategy does return "Federal Bureau Investigation".) -/
theorem c4_first_letter_no_match :
    find_first_letter_match
      "The Federal Bureau of Investigation arrested him.".data "FBI" = none ∧
    find_first_letter_match
      "The Federal Bureau Investigation arrested him.".data "FBI" =
      some "Federal Bureau Investigation" := by decide

/-- C5: the per-file frequency filters.  In one extract_from_text
call, a candidate token whose frequency over the combined pattern
families exceeds 50, or which occurs exactly once with raw length
greater than 5, contributes nothing: its entry in the corpus is
exactly what it was before the call. -/
theorem c5_per_file_frequency_filter (net : String → Option String)
    (st : Extractor) (text sf : String) (t : String)
    (h : 50 < countsOf (matchesOf st.min_length st.max_length text.data) t ∨
         (countsOf (matchesOf st.min_length st.max_length text.data) t = 1 ∧
          5 < t.length)) :
    alookup t (extract_from_text net st text sf).2.abbreviations =
      alookup t st.abbreviations := by
  simp only [extract_from_text]
  exact c5_aux net text.data sf _ t h _ st

/-- Witness for C5: ABCDEF occurs once and has length 6, so it is
dropped. -/
theorem c5_per_file_frequency_filter_witness :
    (countsOf (matchesOf (Extractor.init 2 10 false).min_length
        (Extractor.init 2 10 false).max_length "ABCDEF".data) "ABCDEF" = 1 ∧
      5 < "ABCDEF".length) ∧
    alookup "ABCDEF" (extract_from_text (fun _ => none)
        (Extractor.init 2 10 false) "ABCDEF" "f").2.abbreviations =
      alookup "ABCDEF" (Extractor.init 2 10 false).abbreviations :=
  ⟨⟨by decide, by decide⟩,
   c5_per_file_frequency_filter (fun _ => none) (Extractor.init 2 10 false)
     "ABCDEF" "f" "ABCDEF" (Or.inr ⟨by decide, by decide⟩)⟩

/-- C6 counterexample: the constructor performs no validation.  An
extractor instance with min_length greater than max_length, and one
with a negative bound, are both produced, the invalid configuration
stored unchanged — no error is raised at construction time. -/
theorem c6_counterexample :
    (Extractor.init 5 2 false).min_length = 5 ∧
    (Extractor.init 5 2 false).max_length = 2 ∧
    (Extractor.init 0 (-3) true).min_length = 0 ∧
    (Extractor.init 0 (-3) true).max_length = -3 :=
  ⟨rfl, rfl, rfl, rfl⟩

/-- C6 (amended): construction always succeeds and stores the bounds
as given; under an inverted configuration (min_length greater than
max_length) extraction simply accepts no token, because the
clean-length filter can never pass, so the corpus stays empty. -/
theorem c6_invalid_bounds_extract_nothing {minL maxL : Int} (h : maxL < minL)
    (api : Bool) (net : String → Option String) (text sf : String) :
    (extract_from_text net (Extractor.init minL maxL api) text sf).2.abbreviations
      = [] := by
  simp only [extract_from_text]
  rw [foldl_bounds_skip net text.data sf _ _ (Extractor.init minL maxL api) h]
  rfl

/-- Witness for C6 (amended) at an inverted configuration. -/
theorem c6_invalid_bounds_witness :
    (2 : Int) < 5 ∧
    (extract_from_text (fun _ => none) (Extractor.init 5 2 false)
      "API is here" "f").2.abbreviations = [] :=
  ⟨by decide,
   c6_invalid_bounds_extract_nothing (by decide) false (fun _ => none) "API is here" "f"⟩

/-- C7 counterexample: strategy 4 is compiled with IGNORECASE applied
to the whole pattern, so the clause head matches a lowercase letter
too: on "API stands for application programming interface." the
strategy returns the clause "application programming interface",
which does not begin with an uppercase letter — refuting the claim
that such a clause is never returned. -/
theorem c7_counterexample :
    p4search "API".data "API stands for application programming interface.".data =
      some "application programming interface".data ∧
    find_definition "API stands for application programming interface.".data "API" =
      some "application programming interface" ∧
    ("application programming interface".data.headD ' ').isUpper = false := by
  decide

/-- C7 (amended): strategy 4 matches keyword AND clause
case-insensitively (the IGNORECASE flag covers the whole pattern): an
uppercase keyword with a lowercase clause is accepted and the
lowercase clause is returned. -/
theorem c7_strategy4_fully_case_insensitive :
    p4search "XYZ".data "XYZ MEANS quick brown fox.".data =
      some "quick brown fox".data ∧
    find_definition "XYZ MEANS quick brown fox.".data "XYZ" =
      some "quick brown fox" ∧
    ("quick brown fox".data.headD ' ').isUpper = false := by
  decide

/-- C9: extract_from_text returns the extractor's entire accumulated
mapping — every previously present token is still present in the
returned mapping — and for a match-free (in particular empty) text it
returns the prior mapping unchanged. -/
theorem c9_returns_accumulated_mapping (net : String → Option String)
    (st : Extractor) (text sf : String) :
    (extract_from_text net st text sf).1 =
      (extract_from_text net st text sf).2.abbreviations ∧
    (∀ t, (alookup t st.abbreviations).isSome →
      (alookup t (extract_from_text net st text sf).1).isSome) ∧
    (matchesOf st.min_length st.max_length text.data = [] →
      (extract_from_text net st text sf).1 = st.abbreviations) := by
  refine ⟨rfl, ?_, ?_⟩
  · intro t h
    simp only [extract_from_text]
    exact isSome_foldl net text.data sf _ _ st h
  · intro h
    simp only [extract_from_text]
    rw [h]
    rfl

/-- Witness for C9 at the empty text. -/
theorem c9_returns_accumulated_mapping_witness :
    matchesOf (Extractor.init 2 10 false).min_length
      (Extractor.init 2 10 false).max_length "".data = [] ∧
    (extract_from_text (fun _ => none) (Extractor.init 2 10 false) "" "x").1 =
      (Extractor.init 2 10 false).abbreviations :=
  ⟨by decide,
   (c9_returns_accumulated_mapping (fun _ => none) (Extractor.init 2 10 false)
     "" "x").2.2 (by decide)⟩

/-- Ingesting one file preserves the configuration fields. -/
theorem ingest_config (net : String → Option String) (st : Extractor)
    (tx f : String) :
    (ingest net st tx f).min_length = st.min_length ∧
    (ingest net st tx f).max_length = st.max_length ∧
    (ingest net st tx f).use_api = st.use_api := by
  simp only [ingest, extract_from_text]
  exact foldl_config ..

/-- The count view of one ingest call, stated over the file's own
candidate list and frequency table. -/
theorem ingest_cview (st : Extractor) (minL maxL : Int)
    (h1 : st.min_length = minL) (h2 : st.max_length = maxL)
    (h3 : st.use_api = false) (net : String → Option String)
    (tx f t : String) :
    cview (ingest net st tx f).abbreviations t =
      (if hitsIn minL maxL (countsOf (matchesOf minL maxL tx.data)) tx.data t
            (matchesOf minL maxL tx.data) = 0
       then cview st.abbreviations t
       else some ((cview st.abbreviations t).getD 0 +
         hitsIn minL maxL (countsOf (matchesOf minL maxL tx.data)) tx.data t
             (matchesOf minL maxL tx.data) *
           countsOf (matchesOf minL maxL tx.data) t)) := by
  simp only [ingest, extract_from_text]
  rw [cview_foldl net tx.data f (countsOf (matchesOf st.min_length st.max_length tx.data)) t
    (matchesOf st.min_length st.max_length tx.data) st h3, h1, h2]

/-- The file-set view of one ingest call. -/
theorem ingest_fview (st : Extractor) (minL maxL : Int)
    (h1 : st.min_length = minL) (h2 : st.max_length = maxL)
    (h3 : st.use_api = false) (net : String → Option String)
    (tx f t : String) :
    fview (ingest net st tx f).abbreviations t =
      (if hitsIn minL maxL (countsOf (matchesOf minL maxL tx.data)) tx.data t
            (matchesOf minL maxL tx.data) = 0
       then fview st.abbreviations t
       else some (addFile ((fview st.abbreviations t).getD []) f)) := by
  simp only [ingest, extract_from_text]
  rw [fview_foldl net tx.data f (countsOf (matchesOf st.min_length st.max_length tx.data)) t
    (matchesOf st.min_length st.max_length tx.data) st h3, h1, h2]

/-- C2: order-independence of counts and file sets.  Ingesting two
texts with distinct file identifiers into a fresh extractor (API
disabled, optional capabilities absent) in either order yields, for
every token, the same occurrence count and the same set of source
files. -/
theorem c2_order_independence (minL maxL : Int) (net : String → Option String)
    (tA tB fA fB : String) (_hAB : fA ≠ fB) (t : String) :
    cview (ingest net (ingest net (Extractor.init minL maxL false) tA fA) tB fB).abbreviations t =
      cview (ingest net (ingest net (Extractor.init minL maxL false) tB fB) tA fA).abbreviations t ∧
    (fview (ingest net (ingest net (Extractor.init minL maxL false) tA fA) tB fB).abbreviations t).map List.toFinset =
      (fview (ingest net (ingest net (Extractor.init minL maxL false) tB fB) tA fA).abbreviations t).map List.toFinset := by
  have hA := ingest_config net (Extractor.init minL maxL false) tA fA
  have hB := ingest_config net (Extractor.init minL maxL false) tB fB
  have e0c : cview (Extractor.init minL maxL false).abbreviations t = none := rfl
  have e0f : fview (Extractor.init minL maxL false).abbreviations t = none := rfl
  have eA1 := ingest_cview (Extractor.init minL maxL false)
    minL maxL rfl rfl rfl net tA fA t
  have eB1 := ingest_cview (Extractor.init minL maxL false)
    minL maxL rfl rfl rfl net tB fB t
  have eA2 := ingest_cview (ingest net (Extractor.init minL maxL false) tB fB)
    minL maxL hB.1 hB.2.1 hB.2.2 net tA fA t
  have eB2 := ingest_cview (ingest net (Extractor.init minL maxL false) tA fA)
    minL maxL hA.1 hA.2.1 hA.2.2 net tB fB t
  have fA1 := ingest_fview (Extractor.init minL maxL false)
    minL maxL rfl rfl rfl net tA fA t
  have fB1 := ingest_fview (Extractor.init minL maxL false)
    minL maxL rfl rfl rfl net tB fB t
  have fA2 := ingest_fview (ingest net (Extractor.init minL maxL false) tB fB)
    minL maxL hB.1 hB.2.1 hB.2.2 net tA fA t
  have fB2 := ingest_fview (ingest net (Extractor.init minL maxL false) tA fA)
    minL maxL hA.1 hA.2.1 hA.2.2 net tB fB t
  rw [e0c] at eA1 eB1
  rw [e0f] at fA1 fB1
  set kA := hitsIn minL maxL (countsOf (matchesOf minL maxL tA.data)) tA.data t
      (matchesOf minL maxL tA.data) with hkA
  set kB := hitsIn minL maxL (countsOf (matchesOf minL maxL tB.data)) tB.data t
      (matchesOf minL maxL tB.data) with hkB
  set cA := countsOf (matchesOf minL maxL tA.data) t with hcA
  set cB := countsOf (matchesOf minL maxL tB.data) t with hcB
  constructor
  · rw [eB2, eA1, eA2, eB1]
    by_cases hzA : kA = 0 <;> by_cases hzB : kB = 0
    · simp [hzA, hzB]
    · simp [hzA, hzB]
    · simp [hzA, hzB]
    · simp only [hzA, hzB, if_false, ite_false, Option.getD_some, Option.getD_none]
      simp [hzA, hzB]
      ring
  · rw [fB2, fA1, fA2, fB1]
    by_cases hzA : kA = 0 <;> by_cases hzB : kB = 0
    · simp [hzA, hzB]
    · simp [hzA, hzB]
    · simp [hzA, hzB]
    · simp [hzA, hzB, addFile_toFinset]
      by_cases hfa : fA = "" <;> by_cases hfb : fB = "" <;>
        simp [hfa, hfb, Finset.Insert.comm, Finset.pair_comm]

/-- Witness for C2 at two concrete one-token files. -/
theorem c2_order_independence_witness :
    ("a" : String) ≠ "b" ∧
    cview (ingest (fun _ => none) (ingest (fun _ => none)
        (Extractor.init 2 10 false) "AB" "a") "CD" "b").abbreviations "AB" =
      cview (ingest (fun _ => none) (ingest (fun _ => none)
        (Extractor.init 2 10 false) "CD" "b") "AB" "a").abbreviations "AB" :=
  ⟨by decide,
   (c2_order_independence 2 10 (fun _ => none) "AB" "CD" "a" "b" (by decide) "AB").1⟩

/-- C8: implicit confidence invariant.  After any sequence of
extract_from_text calls on a fresh extractor, every stored record's
confidence lies between the acceptance threshold 0.4 and 1. -/
theorem c8_confidence_invariant (minL maxL : Int) (api : Bool)
    (net : String → Option String) (calls : List (String × String))
    (t : String) (r : Record)
    (h : alookup t (runCalls net (Extractor.init minL maxL api) calls).abbreviations
        = some r) :
    2/5 ≤ r.confidence ∧ r.confidence ≤ 1 :=
  runCalls_ConfOK net calls (Extractor.init minL maxL api)
    (fun _ _ hr => nomatch hr) t r h

/-- Witness for C8 after one call storing the token AB at confidence
0.65. -/
theorem c8_confidence_invariant_witness :
    alookup "AB" (runCalls (fun _ => none) (Extractor.init 2 10 false)
        [("AB", "f")]).abbreviations = some ⟨none, ["f"], 1, 13/20, 0⟩ ∧
    (2/5 : ℚ) ≤ (⟨none, ["f"], 1, 13/20, 0⟩ : Record).confidence ∧
    (⟨none, ["f"], 1, 13/20, 0⟩ : Record).confidence ≤ 1 :=
  ⟨by with_unfolding_all decide,
   c8_confidence_invariant 2 10 false (fun _ => none) [("AB", "f")] "AB"
     ⟨none, ["f"], 1, 13/20, 0⟩ (by with_unfolding_all decide)⟩

/-- C10: clear() empties only the abbreviations mapping; the bounds,
the API toggle and the API cache are left unchanged. -/
theorem c10_clear_frame (st : Extractor) :
    (Extractor.clear st).abbreviations = [] ∧
    (Extractor.clear st).min_length = st.min_length ∧
    (Extractor.clear st).max_length = st.max_length ∧
    (Extractor.clear st).use_api = st.use_api ∧
    (Extractor.clear st).api_cache = st.api_cache :=
  ⟨rfl, rfl, rfl, rfl, rfl⟩

end Scout
